import Mathlib

/-!
Shallow embedding, in exact real arithmetic, of the relativity_sim core:
the dual Cartesian/spherical position representation, spherical-basis
velocity/force vectors, the pairwise gravity computation and the two-phase
world step (`Models/Coordinates/*.py`, `Models/mass.py`, `Models/_element.py`,
`Models/space_time.py`).  Python float operations are modelled as real
operations; a Python `ZeroDivisionError` is modelled by returning `none`.
-/

noncomputable section

open Real

/-- Model of Python's `%` on floats (used by the setters with the positive
divisors `pi` and `2*pi`): the remainder `a - b * floor (a / b)`, which for
`b > 0` lies in `[0, b)`. -/
def fmod (a b : ℝ) : ℝ := a - b * (⌊a / b⌋ : ℤ)

/-- Model of `math.atan2 y x` (C99 semantics, ignoring signed zero):
the angle of the point `(x, y)`, in `(-pi, pi]`. -/
def atan2 (y x : ℝ) : ℝ :=
  if 0 < x then Real.arctan (y / x)
  else if x < 0 ∧ 0 ≤ y then Real.arctan (y / x) + π
  else if x < 0 ∧ y < 0 then Real.arctan (y / x) - π
  else if x = 0 ∧ 0 < y then π / 2
  else if x = 0 ∧ y < 0 then -(π / 2)
  else 0

/-- `SphericalPoint._cartesian_to_spherical` (spherical_point.py line 39):
`(sqrt (x^2+y^2+z^2), acos (z/r), atan2 y x)`, and `(0,0,0)` when `r = 0`. -/
def cartesianToSpherical (x y z : ℝ) : ℝ × ℝ × ℝ :=
  let r := Real.sqrt (x ^ 2 + y ^ 2 + z ^ 2)
  if r = 0 then (0, 0, 0) else (r, Real.arccos (z / r), atan2 y x)

/-- `SphericalPoint._spherical_to_cartesian` (spherical_point.py line 49). -/
def sphericalToCartesian (r theta phi : ℝ) : ℝ × ℝ × ℝ :=
  (r * Real.sin theta * Real.cos phi, r * Real.sin theta * Real.sin phi,
    r * Real.cos theta)

/-- The spherical-primary point variant (`SphericalPoint`): stores `(r, theta, phi)`. -/
structure SphericalPoint where
  r : ℝ
  theta : ℝ
  phi : ℝ

/-- `SphericalPoint.__init__`: construction from Cartesian input. -/
def SphericalPoint.ofCartesian (x y z : ℝ) : SphericalPoint :=
  let s := cartesianToSpherical x y z
  ⟨s.1, s.2.1, s.2.2⟩

/-- The `x` property of `SphericalPoint` (computed from spherical storage). -/
def SphericalPoint.x (p : SphericalPoint) : ℝ :=
  (sphericalToCartesian p.r p.theta p.phi).1

/-- The `y` property of `SphericalPoint`. -/
def SphericalPoint.y (p : SphericalPoint) : ℝ :=
  (sphericalToCartesian p.r p.theta p.phi).2.1

/-- The `z` property of `SphericalPoint`. -/
def SphericalPoint.z (p : SphericalPoint) : ℝ :=
  (sphericalToCartesian p.r p.theta p.phi).2.2

/-- The `r` setter: clamps negative input to `0` (`max(0.0, value)`). -/
def SphericalPoint.setR (p : SphericalPoint) (value : ℝ) : SphericalPoint :=
  { p with r := max 0 value }

/-- The `theta` setter: normalizes by `value % pi`. -/
def SphericalPoint.setTheta (p : SphericalPoint) (value : ℝ) : SphericalPoint :=
  { p with theta := fmod value π }

/-- The `phi` setter: normalizes by `value % (2*pi)`. -/
def SphericalPoint.setPhi (p : SphericalPoint) (value : ℝ) : SphericalPoint :=
  { p with phi := fmod value (2 * π) }

/-- The `x` setter: round-trips through Cartesian form. -/
def SphericalPoint.setX (p : SphericalPoint) (value : ℝ) : SphericalPoint :=
  SphericalPoint.ofCartesian value p.y p.z

/-- The `y` setter: round-trips through Cartesian form. -/
def SphericalPoint.setY (p : SphericalPoint) (value : ℝ) : SphericalPoint :=
  SphericalPoint.ofCartesian p.x value p.z

/-- The `z` setter: round-trips through Cartesian form. -/
def SphericalPoint.setZ (p : SphericalPoint) (value : ℝ) : SphericalPoint :=
  SphericalPoint.ofCartesian p.x p.y value

/-- `SphericalPoint.distance_to` for two spherical-primary operands
(spherical_point.py line 118): either-`r = 0` special cases, then the
spherical law of cosines with the cosine clamped to `[-1, 1]`. -/
def SphericalPoint.distanceTo (p q : SphericalPoint) : ℝ :=
  if p.r = 0 then q.r
  else if q.r = 0 then p.r
  else
    let cosAngle := Real.sin p.theta * Real.sin q.theta * Real.cos (p.phi - q.phi) +
      Real.cos p.theta * Real.cos q.theta
    let clamped := max (-1) (min 1 cosAngle)
    Real.sqrt (p.r ^ 2 + q.r ^ 2 - 2 * p.r * q.r * clamped)

/-- `SphericalPoint.direction_to` (spherical_point.py line 146): the `(theta, phi)`
angles of the displacement `other - self`, `(0, 0)` at zero displacement. -/
def SphericalPoint.directionTo (p q : SphericalPoint) : ℝ × ℝ :=
  let dx := q.x - p.x
  let dy := q.y - p.y
  let dz := q.z - p.z
  let dist := Real.sqrt (dx ^ 2 + dy ^ 2 + dz ^ 2)
  if dist = 0 then (0, 0) else (Real.arccos (dz / dist), atan2 dy dx)

/-- The Cartesian-primary point variant (`Point3D`): stores `(x, y, z)`. -/
structure Point3D where
  x : ℝ
  y : ℝ
  z : ℝ

/-- The computed `r` property of `Point3D` (point3d.py line 74). -/
def Point3D.rOf (p : Point3D) : ℝ := Real.sqrt (p.x ^ 2 + p.y ^ 2 + p.z ^ 2)

/-- The computed `theta` property of `Point3D` (point3d.py line 92). -/
def Point3D.thetaOf (p : Point3D) : ℝ :=
  if p.rOf = 0 then 0 else Real.arccos (p.z / p.rOf)

/-- The computed `phi` property of `Point3D` (point3d.py line 110): `atan2 y x`. -/
def Point3D.phiOf (p : Point3D) : ℝ := atan2 p.y p.x

/-- `Point3D.distance_to` (point3d.py line 124): componentwise Cartesian distance. -/
def Point3D.distanceTo (p q : Point3D) : ℝ :=
  Real.sqrt ((q.x - p.x) ^ 2 + (q.y - p.y) ^ 2 + (q.z - p.z) ^ 2)

/-- The Cartesian image of a `SphericalPoint`: the physical location it denotes. -/
def SphericalPoint.toPoint3D (p : SphericalPoint) : Point3D := ⟨p.x, p.y, p.z⟩

/-- `SphericalVelocity`: velocity in the local spherical basis, the angular
components stored as angular rates. -/
structure SphericalVelocity where
  v_r : ℝ
  v_theta : ℝ
  v_phi : ℝ

/-- `SphericalVelocity.from_cartesian` (spherical_velocity.py line 24):
projection of a Cartesian velocity onto the local spherical basis at
`position`, with the origin special case and the guarded divisions by `r`
and `r * sin theta`. -/
def SphericalVelocity.fromCartesian (vx vy vz : ℝ) (position : SphericalPoint) :
    SphericalVelocity :=
  let r := position.r
  let theta := position.theta
  let phi := position.phi
  if r = 0 then ⟨Real.sqrt (vx ^ 2 + vy ^ 2 + vz ^ 2), 0, 0⟩
  else
    let sinTheta := Real.sin theta
    let cosTheta := Real.cos theta
    let sinPhi := Real.sin phi
    let cosPhi := Real.cos phi
    ⟨vx * sinTheta * cosPhi + vy * sinTheta * sinPhi + vz * cosTheta,
     if 0 < r then (vx * cosTheta * cosPhi + vy * cosTheta * sinPhi - vz * sinTheta) / r
       else 0,
     if 0 < r ∧ sinTheta ≠ 0 then (-vx * sinPhi + vy * cosPhi) / (r * sinTheta)
       else 0⟩

/-- `SphericalVelocity.to_cartesian` (spherical_velocity.py line 60): the inverse
basis transform evaluated at `position`. -/
def SphericalVelocity.toCartesian (v : SphericalVelocity) (position : SphericalPoint) :
    ℝ × ℝ × ℝ :=
  let r := position.r
  let sinTheta := Real.sin position.theta
  let cosTheta := Real.cos position.theta
  let sinPhi := Real.sin position.phi
  let cosPhi := Real.cos position.phi
  (v.v_r * sinTheta * cosPhi + r * v.v_theta * cosTheta * cosPhi -
     r * sinTheta * v.v_phi * sinPhi,
   v.v_r * sinTheta * sinPhi + r * v.v_theta * cosTheta * sinPhi +
     r * sinTheta * v.v_phi * cosPhi,
   v.v_r * cosTheta - r * v.v_theta * sinTheta)

/-- `SphericalVelocity.magnitude`: linear speed at `position`. -/
def SphericalVelocity.magnitude (v : SphericalVelocity) (position : SphericalPoint) : ℝ :=
  Real.sqrt (v.v_r ^ 2 + (position.r * v.v_theta) ^ 2 +
    (position.r * Real.sin position.theta * v.v_phi) ^ 2)

/-- `SphericalVelocity.__add__`: componentwise addition. -/
def SphericalVelocity.add (a b : SphericalVelocity) : SphericalVelocity :=
  ⟨a.v_r + b.v_r, a.v_theta + b.v_theta, a.v_phi + b.v_phi⟩

/-- `SphericalForce`: force in the local spherical basis. -/
structure SphericalForce where
  F_r : ℝ
  F_theta : ℝ
  F_phi : ℝ

/-- The default `SphericalForce()` constructor / the state after `reset()`. -/
def SphericalForce.zero : SphericalForce := ⟨0, 0, 0⟩

/-- `SphericalForce.__add__`: componentwise addition. -/
def SphericalForce.add (a b : SphericalForce) : SphericalForce :=
  ⟨a.F_r + b.F_r, a.F_theta + b.F_theta, a.F_phi + b.F_phi⟩

/-- `SphericalForce.magnitude` (spherical_force.py line 67). -/
def SphericalForce.magnitude (f : SphericalForce) : ℝ :=
  Real.sqrt (f.F_r ^ 2 + f.F_theta ^ 2 + f.F_phi ^ 2)

/-- `SpaceTime.Gravitational_Constant = 6.67408e-11` (space_time.py line 9),
as the exact rational it denotes in decimal. -/
def SpaceTime.Gravitational_Constant : ℝ := 667408 / 10 ^ 16

/-- A `Mass` (mass.py), flattened together with its `_Element` base state
(position, velocity, age). -/
structure Mass where
  position : SphericalPoint
  velocity : SphericalVelocity
  age : ℝ
  mass : ℝ
  net_force : SphericalForce
  total_gravitational_potential : ℝ

/-- `Mass.__init__` via `_Element.__init__`: position from Cartesian input,
velocity decomposed at that position, age `0`, accumulators zero. -/
def Mass.make (x y z vx vy vz m : ℝ) : Mass :=
  let pos := SphericalPoint.ofCartesian x y z
  { position := pos
    velocity := SphericalVelocity.fromCartesian vx vy vz pos
    age := 0
    mass := m
    net_force := SphericalForce.zero
    total_gravitational_potential := 0 }

/-- `_Element.distance_from`: distance between the two positions. -/
def Mass.distanceFrom (a b : Mass) : ℝ := a.position.distanceTo b.position

/-- `Mass.force_from` (mass.py line 51): zero force at distance `0`, otherwise
the magnitude `G * other.mass * self.mass / d^2` scaling the projection of the
unit vector toward `other` onto the local spherical basis at `self.position`. -/
def Mass.forceFrom (self other : Mass) : SphericalForce :=
  let distance := self.distanceFrom other
  if distance = 0 then SphericalForce.zero
  else
    let magnitude := SpaceTime.Gravitational_Constant * other.mass * self.mass /
      distance ^ 2
    let dir := self.position.directionTo other.position
    let sinThetaDir := Real.sin dir.1
    let cosThetaDir := Real.cos dir.1
    let sinPhiDir := Real.sin dir.2
    let cosPhiDir := Real.cos dir.2
    let sinThetaPos := Real.sin self.position.theta
    let cosThetaPos := Real.cos self.position.theta
    let sinPhiPos := Real.sin self.position.phi
    let cosPhiPos := Real.cos self.position.phi
    let ux := sinThetaDir * cosPhiDir
    let uy := sinThetaDir * sinPhiDir
    let uz := cosThetaDir
    ⟨magnitude * (ux * sinThetaPos * cosPhiPos + uy * sinThetaPos * sinPhiPos +
        uz * cosThetaPos),
     magnitude * (ux * cosThetaPos * cosPhiPos + uy * cosThetaPos * sinPhiPos -
        uz * sinThetaPos),
     magnitude * (-ux * sinPhiPos + uy * cosPhiPos)⟩

/-- `Mass.get_gravitational_potential` (mass.py line 119): `-(G * other.mass / d)`,
`0` at `d = 0`. -/
def Mass.getGravitationalPotential (self other : Mass) : ℝ :=
  let distance := self.distanceFrom other
  if distance = 0 then 0
  else -1 * (SpaceTime.Gravitational_Constant * other.mass / distance)

/-- `Mass.apply_gravity` (mass.py line 36): reset both accumulators, then fold
each other mass's potential and force contribution into them. -/
def Mass.applyGravity (self : Mass) (masses : List Mass) : Mass :=
  masses.foldl
    (fun acc other =>
      { acc with
        total_gravitational_potential :=
          acc.total_gravitational_potential + acc.getGravitationalPotential other
        net_force := acc.net_force.add (acc.forceFrom other) })
    { self with net_force := SphericalForce.zero, total_gravitational_potential := 0 }

/-- `Mass.update_position` (mass.py line 130): acceleration from the net force
(dividing by `m`, `m*r` and `m*r*sin theta`; a zero divisor raises
`ZeroDivisionError` in Python, modelled by `none`), semi-implicit velocity
update, then the three positional increments through the normalizing setters. -/
def Mass.updatePosition (self : Mass) (dt : ℝ) : Option Mass :=
  let r := self.position.r
  let sinTheta := Real.sin self.position.theta
  if self.mass = 0 ∨ self.mass * r = 0 ∨ self.mass * r * sinTheta = 0 then none
  else
    let a_r := self.net_force.F_r / self.mass
    let a_theta := self.net_force.F_theta / (self.mass * r)
    let a_phi := self.net_force.F_phi / (self.mass * r * sinTheta)
    let newVel := self.velocity.add ⟨a_r * dt, a_theta * dt, a_phi * dt⟩
    let pos1 := self.position.setR (self.position.r + newVel.v_r * dt)
    let pos2 := pos1.setTheta (pos1.theta + newVel.v_theta * dt)
    let pos3 := pos2.setPhi (pos2.phi + newVel.v_phi * dt)
    some { self with velocity := newVel, position := pos3 }

/-- `_Element.time_step` (ELEMENT.py line 23): positional increments from the
current velocity plus an age increment; the only operation incrementing age. -/
def Mass.timeStep (self : Mass) (dt : ℝ) : Mass :=
  let pos1 := self.position.setR (self.position.r + self.velocity.v_r * dt)
  let pos2 := pos1.setTheta (pos1.theta + self.velocity.v_theta * dt)
  let pos3 := pos2.setPhi (pos2.phi + self.velocity.v_phi * dt)
  { self with position := pos3, age := self.age + dt }

/-- `Mass.relative_time`: the no-op passthrough placeholder. -/
def Mass.relativeTime (_self : Mass) (absolute_dt : ℝ) : ℝ := absolute_dt

/-- The world (`SpaceTime.__init__`): the ordered mass list and the world age. -/
structure SpaceTime where
  masses : List Mass
  age : ℝ

/-- A fresh `SpaceTime()`. -/
def SpaceTime.empty : SpaceTime := ⟨[], 0⟩

/-- `SpaceTime.add_mass`: append a newly constructed mass. -/
def SpaceTime.addMass (w : SpaceTime) (x y z vx vy vz m : ℝ) : SpaceTime :=
  { w with masses := w.masses ++ [Mass.make x y z vx vy vz m] }

/-- The phase-1 loop of `SpaceTime.update` (space_time.py lines 47-51), as a
zipper over the in-place list: `done` holds the already-processed masses
(accumulators rebuilt, in reverse), and each step applies gravity to the next
mass from all others in the current list state. -/
def forcePass : List Mass → List Mass → List Mass
  | done, [] => done.reverse
  | done, m :: rest =>
      forcePass (Mass.applyGravity m (done.reverse ++ rest) :: done) rest

/-- The phase-1 result re-expressed against the entry snapshot: `pre` holds the
original already-passed masses (in reverse), and every element's accumulators
are computed from the original entry list only. -/
def forcePassSnap : List Mass → List Mass → List Mass
  | _, [] => []
  | pre, m :: rest =>
      Mass.applyGravity m (pre.reverse ++ rest) :: forcePassSnap (m :: pre) rest

/-- Option-valued traversal: the phase-2 loop, aborting at the first mass whose
`update_position` raises. -/
def mapMOpt {α β : Type} (f : α → Option β) : List α → Option (List β)
  | [] => some []
  | a :: as => (f a).bind fun b => (mapMOpt f as).map fun bs => b :: bs

/-- `SpaceTime.update` (space_time.py line 41): phase 1 (force accumulation over
the list), phase 2 (`update_position` on every mass), then `age += dt`; a raise
in phase 2 propagates (no completed post-state). -/
def SpaceTime.update (w : SpaceTime) (dt : ℝ) : Option SpaceTime :=
  Option.map (fun ms => { masses := ms, age := w.age + dt })
    (mapMOpt (fun m => Mass.updatePosition m dt) (forcePass [] w.masses))

/-- The externally driven operations on a world, for whole-run statements. -/
inductive SimOp where
  | addMass (x y z vx vy vz m : ℝ)
  | update (dt : ℝ)

/-- Run one operation. -/
def runOp (w : SpaceTime) : SimOp → Option SpaceTime
  | SimOp.addMass x y z vx vy vz m => some (w.addMass x y z vx vy vz m)
  | SimOp.update dt => w.update dt

/-- Run a sequence of operations from a starting world. -/
def runOps (w : SpaceTime) : List SimOp → Option SpaceTime
  | [] => some w
  | op :: rest => (runOp w op).bind fun w' => runOps w' rest

/-! Helper lemmas: ranges of the numeric primitives. -/

lemma fmod_nonneg (a : ℝ) {b : ℝ} (hb : 0 < b) : 0 ≤ fmod a b := by
  have h := Int.floor_le (a / b)
  have : b * (⌊a / b⌋ : ℝ) ≤ b * (a / b) := by
    exact mul_le_mul_of_nonneg_left h hb.le
  rw [mul_div_cancel₀ a hb.ne'] at this
  simpa [fmod] using this

lemma fmod_lt (a : ℝ) {b : ℝ} (hb : 0 < b) : fmod a b < b := by
  have h := Int.lt_floor_add_one (a / b)
  have : b * (a / b) < b * ((⌊a / b⌋ : ℝ) + 1) := by
    exact mul_lt_mul_of_pos_left h hb
  rw [mul_div_cancel₀ a hb.ne'] at this
  unfold fmod
  nlinarith [this]

lemma neg_pi_lt_atan2 (y x : ℝ) : -π < atan2 y x := by
  unfold atan2
  split_ifs with h1 h2 h3 h4 h5
  · exact lt_trans (by linarith [Real.pi_pos]) (Real.neg_pi_div_two_lt_arctan (y / x))
  · have := Real.neg_pi_div_two_lt_arctan (y / x)
    linarith [Real.pi_pos]
  · have hyx : 0 < y / x := div_pos_of_neg_of_neg h3.2 h3.1
    have : Real.arctan 0 < Real.arctan (y / x) := Real.arctan_strictMono hyx
    rw [Real.arctan_zero] at this
    linarith
  · linarith [Real.pi_pos]
  · linarith [Real.pi_pos]
  · linarith [Real.pi_pos]

lemma atan2_le_pi (y x : ℝ) : atan2 y x ≤ π := by
  unfold atan2
  split_ifs with h1 h2 h3 h4 h5
  · have := Real.arctan_lt_pi_div_two (y / x)
    linarith [Real.pi_pos]
  · have hyx : y / x ≤ 0 := div_nonpos_of_nonneg_of_nonpos h2.2 h2.1.le
    have : Real.arctan (y / x) ≤ Real.arctan 0 := Real.arctan_strictMono.monotone hyx
    rw [Real.arctan_zero] at this
    linarith
  · have := Real.arctan_lt_pi_div_two (y / x)
    linarith [Real.pi_pos]
  · linarith [Real.pi_pos]
  · linarith [Real.pi_pos]
  · linarith [Real.pi_pos]

/-! Helper lemmas: orthonormal-basis algebra shared by the velocity round-trip
and the force-magnitude computation. -/

lemma unit_vector_sq (theta phi : ℝ) :
    (Real.sin theta * Real.cos phi) ^ 2 + (Real.sin theta * Real.sin phi) ^ 2 +
      (Real.cos theta) ^ 2 = 1 := by
  have ht := Real.sin_sq_add_cos_sq theta
  have hp := Real.sin_sq_add_cos_sq phi
  nlinarith [ht, hp]

lemma basis_proj_sq (ux uy uz st ct sp cp : ℝ) (ht : st ^ 2 + ct ^ 2 = 1)
    (hp : sp ^ 2 + cp ^ 2 = 1) :
    (ux * st * cp + uy * st * sp + uz * ct) ^ 2 +
      (ux * ct * cp + uy * ct * sp - uz * st) ^ 2 +
      (-ux * sp + uy * cp) ^ 2 = ux ^ 2 + uy ^ 2 + uz ^ 2 := by
  nlinarith [ht, hp, sq_nonneg (ux * cp + uy * sp), sq_nonneg (ux * sp - uy * cp)]

/-- C2: For every Cartesian velocity `(vx, vy, vz)` and every position with
`r > 0` and `sin theta ≠ 0` (non-origin, non-pole),
`to_cartesian (from_cartesian (vx, vy, vz, p), p)` returns exactly
`(vx, vy, vz)` in exact arithmetic. -/
theorem velocity_roundtrip (vx vy vz : ℝ) (p : SphericalPoint) (hr : 0 < p.r)
    (hs : Real.sin p.theta ≠ 0) :
    (SphericalVelocity.fromCartesian vx vy vz p).toCartesian p = (vx, vy, vz) := by
  have hr0 : p.r ≠ 0 := ne_of_gt hr
  have ht := Real.sin_sq_add_cos_sq p.theta
  have hp := Real.sin_sq_add_cos_sq p.phi
  unfold SphericalVelocity.fromCartesian SphericalVelocity.toCartesian
  rw [if_neg hr0]
  simp only [if_pos hr, if_pos (And.intro hr hs), Prod.mk.injEq]
  refine ⟨?_, ?_, ?_⟩
  · field_simp
    linear_combination
      (vx * Real.cos p.phi ^ 2 + vy * Real.cos p.phi * Real.sin p.phi) * ht + vx * hp
  · field_simp
    linear_combination
      (vy * Real.sin p.phi ^ 2 + vx * Real.cos p.phi * Real.sin p.phi) * ht + vy * hp
  · field_simp
    linear_combination vz * ht

/-- Witness for C2 at the concrete position `(r, theta, phi) = (1, pi/2, 0)` and
velocity `(1, 2, 3)`: the hypotheses hold there and the round trip is exact. -/
theorem velocity_roundtrip_witness :
    0 < (SphericalPoint.mk 1 (π / 2) 0).r ∧
      Real.sin (SphericalPoint.mk 1 (π / 2) 0).theta ≠ 0 ∧
      (SphericalVelocity.fromCartesian 1 2 3 (SphericalPoint.mk 1 (π / 2) 0)).toCartesian
        (SphericalPoint.mk 1 (π / 2) 0) = (1, 2, 3) := by
  have h1 : 0 < (SphericalPoint.mk 1 (π / 2) 0).r := by norm_num
  have h2 : Real.sin (SphericalPoint.mk 1 (π / 2) 0).theta ≠ 0 := by
    show Real.sin (π / 2) ≠ 0
    rw [Real.sin_pi_div_two]
    norm_num
  exact ⟨h1, h2, velocity_roundtrip 1 2 3 (SphericalPoint.mk 1 (π / 2) 0) h1 h2⟩

lemma cos_gamma_le_one (t1 t2 d : ℝ) :
    Real.sin t1 * Real.sin t2 * Real.cos d + Real.cos t1 * Real.cos t2 ≤ 1 := by
  nlinarith [sq_nonneg (Real.sin t1 - Real.sin t2), sq_nonneg (Real.sin t1 + Real.sin t2),
    sq_nonneg (Real.cos t1 - Real.cos t2), sq_nonneg (Real.cos t1 + Real.cos t2),
    Real.neg_one_le_cos d, Real.cos_le_one d,
    Real.sin_sq_add_cos_sq t1, Real.sin_sq_add_cos_sq t2]

lemma neg_one_le_cos_gamma (t1 t2 d : ℝ) :
    -1 ≤ Real.sin t1 * Real.sin t2 * Real.cos d + Real.cos t1 * Real.cos t2 := by
  nlinarith [sq_nonneg (Real.sin t1 - Real.sin t2), sq_nonneg (Real.sin t1 + Real.sin t2),
    sq_nonneg (Real.cos t1 - Real.cos t2), sq_nonneg (Real.cos t1 + Real.cos t2),
    Real.neg_one_le_cos d, Real.cos_le_one d,
    Real.sin_sq_add_cos_sq t1, Real.sin_sq_add_cos_sq t2]

/-- C4: For every pair of points denoting the same two physical locations
(`r ≥ 0` as every constructed position satisfies), the spherical
law-of-cosines distance of `SphericalPoint.distance_to` — clamp and `r = 0`
special cases included — equals the direct Cartesian componentwise distance of
`Point3D.distance_to`, exactly, in real arithmetic. -/
theorem spherical_distance_refines_cartesian (p q : SphericalPoint) (hp : 0 ≤ p.r)
    (hq : 0 ≤ q.r) : p.distanceTo q = p.toPoint3D.distanceTo q.toPoint3D := by
  have ht1 := Real.sin_sq_add_cos_sq p.theta
  have ht2 := Real.sin_sq_add_cos_sq q.theta
  have hp1 := Real.sin_sq_add_cos_sq p.phi
  have hp2 := Real.sin_sq_add_cos_sq q.phi
  unfold SphericalPoint.distanceTo Point3D.distanceTo SphericalPoint.toPoint3D
    SphericalPoint.x SphericalPoint.y SphericalPoint.z sphericalToCartesian
  by_cases hpr : p.r = 0
  · rw [if_pos hpr, hpr]
    simp only [zero_mul, sub_zero]
    rw [show (q.r * Real.sin q.theta * Real.cos q.phi) ^ 2 +
        (q.r * Real.sin q.theta * Real.sin q.phi) ^ 2 + (q.r * Real.cos q.theta) ^ 2 =
        q.r ^ 2 from by
      linear_combination (q.r ^ 2 * Real.sin q.theta ^ 2) * hp2 + q.r ^ 2 * ht2]
    exact (Real.sqrt_sq hq).symm
  · rw [if_neg hpr]
    by_cases hqr : q.r = 0
    · rw [if_pos hqr, hqr]
      simp only [zero_mul, sub_zero, zero_sub, neg_sq]
      rw [show (p.r * Real.sin p.theta * Real.cos p.phi) ^ 2 +
          (p.r * Real.sin p.theta * Real.sin p.phi) ^ 2 + (p.r * Real.cos p.theta) ^ 2 =
          p.r ^ 2 from by
        linear_combination (p.r ^ 2 * Real.sin p.theta ^ 2) * hp1 + p.r ^ 2 * ht1]
      exact (Real.sqrt_sq hp).symm
    · rw [if_neg hqr]
      dsimp only
      rw [min_eq_right (cos_gamma_le_one p.theta q.theta (p.phi - q.phi)),
        max_eq_right (neg_one_le_cos_gamma p.theta q.theta (p.phi - q.phi))]
      congr 1
      rw [Real.cos_sub]
      ring_nf
      linear_combination (-(p.r ^ 2 * Real.sin p.theta ^ 2)) * hp1 -
        p.r ^ 2 * ht1 - (q.r ^ 2 * Real.sin q.theta ^ 2) * hp2 -
        q.r ^ 2 * ht2

/-- Witness for C4 at the concrete points `(1, pi/2, 0)` and `(2, pi/3, 1)`:
both radii are nonnegative and the two distance computations agree. -/
theorem spherical_distance_refines_cartesian_witness :
    (0 : ℝ) ≤ (SphericalPoint.mk 1 (π / 2) 0).r ∧
      (0 : ℝ) ≤ (SphericalPoint.mk 2 (π / 3) 1).r ∧
      (SphericalPoint.mk 1 (π / 2) 0).distanceTo (SphericalPoint.mk 2 (π / 3) 1) =
        (SphericalPoint.mk 1 (π / 2) 0).toPoint3D.distanceTo
          (SphericalPoint.mk 2 (π / 3) 1).toPoint3D := by
  have h1 : (0 : ℝ) ≤ (SphericalPoint.mk 1 (π / 2) 0).r := by norm_num
  have h2 : (0 : ℝ) ≤ (SphericalPoint.mk 2 (π / 3) 1).r := by norm_num
  exact ⟨h1, h2, spherical_distance_refines_cartesian _ _ h1 h2⟩

/-- The invariant that the position representation actually maintains:
`r ≥ 0`, `theta ∈ [0, pi]`, and `phi ∈ (-pi, 2*pi)` — the union of the
`atan2` range `(-pi, pi]` produced by Cartesian-input conversion and the
`[0, 2*pi)` range produced by the direct `phi` setter. -/
def SphericalPoint.invariants (p : SphericalPoint) : Prop :=
  0 ≤ p.r ∧ 0 ≤ p.theta ∧ p.theta ≤ π ∧ -π < p.phi ∧ p.phi < 2 * π

lemma ofCartesian_invariants (x y z : ℝ) :
    (SphericalPoint.ofCartesian x y z).invariants ∧
      -π < (SphericalPoint.ofCartesian x y z).phi ∧
      (SphericalPoint.ofCartesian x y z).phi ≤ π := by
  unfold SphericalPoint.ofCartesian cartesianToSpherical SphericalPoint.invariants
  by_cases h : Real.sqrt (x ^ 2 + y ^ 2 + z ^ 2) = 0
  · rw [if_pos h]
    refine ⟨⟨le_refl 0, le_refl 0, Real.pi_pos.le, ?_, ?_⟩, ?_, Real.pi_pos.le⟩ <;>
      simp only [neg_neg] <;> linarith [Real.pi_pos]
  · rw [if_neg h]
    refine ⟨⟨Real.sqrt_nonneg _, Real.arccos_nonneg _, Real.arccos_le_pi _,
      neg_pi_lt_atan2 y x, ?_⟩, neg_pi_lt_atan2 y x, atan2_le_pi y x⟩
    have := atan2_le_pi y x
    linarith [Real.pi_pos]

/-- C3 counterexample: construction from the Cartesian input `(1, -1, 0)`
stores `phi = atan2 (-1) 1 = -pi/4`, which violates the claimed
`phi ∈ [0, 2*pi)` range. -/
theorem position_phi_invariant_cex :
    ¬ (0 ≤ (SphericalPoint.ofCartesian 1 (-1) 0).phi ∧
        (SphericalPoint.ofCartesian 1 (-1) 0).phi < 2 * π) := by
  have hphi : (SphericalPoint.ofCartesian 1 (-1) 0).phi = -(π / 4) := by
    unfold SphericalPoint.ofCartesian cartesianToSpherical
    have h : Real.sqrt ((1 : ℝ) ^ 2 + (-1) ^ 2 + 0 ^ 2) ≠ 0 := by
      rw [show ((1 : ℝ) ^ 2 + (-1) ^ 2 + 0 ^ 2) = 2 by norm_num]
      exact Real.sqrt_ne_zero'.mpr (by norm_num)
    rw [if_neg h]
    show atan2 (-1) 1 = -(π / 4)
    unfold atan2
    rw [if_pos (by norm_num : (0 : ℝ) < 1)]
    rw [show ((-1 : ℝ) / 1) = -1 by norm_num, show (-1 : ℝ) = -(1 : ℝ) by norm_num,
      Real.arctan_neg, Real.arctan_one]
  rw [hphi]
  intro hcon
  have := hcon.1
  linarith [Real.pi_pos]

/-- C3 amended: every `Position` operation establishes and preserves `r ≥ 0`
and `theta ∈ [0, pi]` as claimed, but the `phi` range that is actually
maintained is `(-pi, 2*pi)`: construction from Cartesian input (either
variant, and the Cartesian-component setters) yields `phi = atan2 ∈ (-pi, pi]`
— negative for `y < 0` — while only the direct `phi` setter normalizes into
`[0, 2*pi)`. -/
theorem position_invariants_amended :
    (∀ x y z : ℝ, (SphericalPoint.ofCartesian x y z).invariants ∧
        -π < (SphericalPoint.ofCartesian x y z).phi ∧
        (SphericalPoint.ofCartesian x y z).phi ≤ π) ∧
    (∀ (p : SphericalPoint) (v : ℝ), p.invariants →
        (p.setR v).invariants ∧ (p.setTheta v).invariants ∧ (p.setPhi v).invariants ∧
        (p.setX v).invariants ∧ (p.setY v).invariants ∧ (p.setZ v).invariants) ∧
    (∀ (p : SphericalPoint) (v : ℝ),
        0 ≤ (p.setPhi v).phi ∧ (p.setPhi v).phi < 2 * π ∧
        0 ≤ (p.setTheta v).theta ∧ (p.setTheta v).theta ≤ π ∧
        0 ≤ (p.setR v).r) ∧
    (∀ q : Point3D, 0 ≤ q.rOf ∧ 0 ≤ q.thetaOf ∧ q.thetaOf ≤ π ∧
        -π < q.phiOf ∧ q.phiOf ≤ π) := by
  have hpi := Real.pi_pos
  have htwo : (0 : ℝ) < 2 * π := by linarith
  refine ⟨fun x y z => ofCartesian_invariants x y z, ?_, ?_, ?_⟩
  · intro p v hp
    obtain ⟨h1, h2, h3, h4, h5⟩ := hp
    unfold SphericalPoint.setR SphericalPoint.setTheta SphericalPoint.setPhi
      SphericalPoint.setX SphericalPoint.setY SphericalPoint.setZ
      SphericalPoint.invariants
    dsimp only
    refine ⟨⟨le_max_left 0 v, h2, h3, h4, h5⟩,
      ⟨h1, fmod_nonneg v hpi, (fmod_lt v hpi).le, h4, h5⟩,
      ⟨h1, h2, h3, by linarith [fmod_nonneg v htwo], fmod_lt v htwo⟩,
      (ofCartesian_invariants _ _ _).1, (ofCartesian_invariants _ _ _).1,
      (ofCartesian_invariants _ _ _).1⟩
  · intro p v
    unfold SphericalPoint.setR SphericalPoint.setTheta SphericalPoint.setPhi
    dsimp only
    exact ⟨fmod_nonneg v htwo, fmod_lt v htwo, fmod_nonneg v hpi, (fmod_lt v hpi).le,
      le_max_left 0 v⟩
  · intro q
    unfold Point3D.rOf Point3D.thetaOf Point3D.phiOf
    refine ⟨Real.sqrt_nonneg _, ?_, ?_, neg_pi_lt_atan2 q.y q.x, atan2_le_pi q.y q.x⟩
    · by_cases h : Real.sqrt (q.x ^ 2 + q.y ^ 2 + q.z ^ 2) = 0
      · rw [Point3D.rOf, if_pos h]
      · rw [Point3D.rOf, if_neg h]
        exact Real.arccos_nonneg _
    · by_cases h : Real.sqrt (q.x ^ 2 + q.y ^ 2 + q.z ^ 2) = 0
      · rw [Point3D.rOf, if_pos h]
        exact hpi.le
      · rw [Point3D.rOf, if_neg h]
        exact Real.arccos_le_pi _

/-- Witness for C3's amended theorem: the setter-preservation component applied
at the concrete in-range point `(1, 1, 1)` with setter input `5`. -/
theorem position_invariants_amended_witness :
    SphericalPoint.invariants (SphericalPoint.mk 1 1 1) ∧
      (SphericalPoint.invariants ((SphericalPoint.mk 1 1 1).setR 5) ∧
        SphericalPoint.invariants ((SphericalPoint.mk 1 1 1).setTheta 5) ∧
        SphericalPoint.invariants ((SphericalPoint.mk 1 1 1).setPhi 5) ∧
        SphericalPoint.invariants ((SphericalPoint.mk 1 1 1).setX 5) ∧
        SphericalPoint.invariants ((SphericalPoint.mk 1 1 1).setY 5) ∧
        SphericalPoint.invariants ((SphericalPoint.mk 1 1 1).setZ 5)) := by
  have hinv : SphericalPoint.invariants (SphericalPoint.mk 1 1 1) := by
    refine ⟨by norm_num, by norm_num, ?_, ?_, ?_⟩ <;>
      [skip; skip; skip] <;> simp only [] <;> nlinarith [Real.pi_gt_three]
  exact ⟨hinv, position_invariants_amended.2.1 (SphericalPoint.mk 1 1 1) 5 hinv⟩

lemma distanceTo_symm (p q : SphericalPoint) : p.distanceTo q = q.distanceTo p := by
  unfold SphericalPoint.distanceTo
  by_cases hp : p.r = 0 <;> by_cases hq : q.r = 0 <;> simp only [hp, hq, if_true, if_false,
    ite_true, ite_false, if_pos, if_neg]
  · have hc : Real.sin q.theta * Real.sin p.theta * Real.cos (q.phi - p.phi) +
        Real.cos q.theta * Real.cos p.theta =
        Real.sin p.theta * Real.sin q.theta * Real.cos (p.phi - q.phi) +
        Real.cos p.theta * Real.cos q.theta := by
      rw [show q.phi - p.phi = -(p.phi - q.phi) by ring, Real.cos_neg]
      ring
    rw [hc]
    congr 1
    ring

lemma mass_distance_symm (a b : Mass) : a.distanceFrom b = b.distanceFrom a := by
  unfold Mass.distanceFrom
  exact distanceTo_symm a.position b.position

lemma forceFrom_magnitude_eq (a b : Mass) (hd : a.distanceFrom b ≠ 0) :
    (a.forceFrom b).magnitude =
      |SpaceTime.Gravitational_Constant * b.mass * a.mass / (a.distanceFrom b) ^ 2| := by
  unfold Mass.forceFrom
  rw [if_neg hd]
  unfold SphericalForce.magnitude
  dsimp only
  rw [← Real.sqrt_sq_eq_abs]
  congr 1
  have hb := basis_proj_sq
    (Real.sin (a.position.directionTo b.position).1 * Real.cos (a.position.directionTo b.position).2)
    (Real.sin (a.position.directionTo b.position).1 * Real.sin (a.position.directionTo b.position).2)
    (Real.cos (a.position.directionTo b.position).1)
    (Real.sin a.position.theta) (Real.cos a.position.theta)
    (Real.sin a.position.phi) (Real.cos a.position.phi)
    (Real.sin_sq_add_cos_sq a.position.theta) (Real.sin_sq_add_cos_sq a.position.phi)
  have hu := unit_vector_sq (a.position.directionTo b.position).1
    (a.position.directionTo b.position).2
  linear_combination (SpaceTime.Gravitational_Constant * b.mass * a.mass /
      (a.distanceFrom b) ^ 2) ^ 2 * hb +
    (SpaceTime.Gravitational_Constant * b.mass * a.mass /
      (a.distanceFrom b) ^ 2) ^ 2 * hu

lemma zero_force_magnitude : SphericalForce.zero.magnitude = 0 := by
  unfold SphericalForce.magnitude SphericalForce.zero
  norm_num

lemma forceFrom_zero_of_dist_eq_zero (a b : Mass) (hd : a.distanceFrom b = 0) :
    a.forceFrom b = SphericalForce.zero := by
  unfold Mass.forceFrom
  rw [if_pos hd]

/-- C5: For every pair of masses (with the nonnegative masses every physical
`Mass` carries), `|a.force_from b| = |b.force_from a|`; when the distance `d`
is positive both equal `G * m_a * m_b / d^2`, and when `d = 0` both are zero. -/
theorem force_newton_third (a b : Mass) (ha : 0 ≤ a.mass) (hb : 0 ≤ b.mass) :
    (a.forceFrom b).magnitude = (b.forceFrom a).magnitude ∧
      (0 < a.distanceFrom b →
        (a.forceFrom b).magnitude =
          SpaceTime.Gravitational_Constant * a.mass * b.mass / a.distanceFrom b ^ 2) ∧
      (a.distanceFrom b = 0 →
        (a.forceFrom b).magnitude = 0 ∧ (b.forceFrom a).magnitude = 0) := by
  have hg : (0 : ℝ) ≤ SpaceTime.Gravitational_Constant := by
    norm_num [SpaceTime.Gravitational_Constant]
  refine ⟨?_, ?_, ?_⟩
  · by_cases hd : a.distanceFrom b = 0
    · rw [forceFrom_zero_of_dist_eq_zero a b hd,
        forceFrom_zero_of_dist_eq_zero b a ((mass_distance_symm b a).trans hd)]
    · have hd' : b.distanceFrom a ≠ 0 := fun h => hd ((mass_distance_symm a b).trans h)
      rw [forceFrom_magnitude_eq a b hd, forceFrom_magnitude_eq b a hd',
        mass_distance_symm b a]
      congr 1
      ring
  · intro hpos
    rw [forceFrom_magnitude_eq a b (ne_of_gt hpos)]
    rw [abs_of_nonneg (by positivity)]
    ring
  · intro hd
    exact ⟨by rw [forceFrom_zero_of_dist_eq_zero a b hd, zero_force_magnitude],
      by rw [forceFrom_zero_of_dist_eq_zero b a ((mass_distance_symm b a).trans hd),
        zero_force_magnitude]⟩

/-- Witness for C5 at two concrete masses (5 kg at the origin, 10 kg at
`(10, 0, 0)`): the mass-nonnegativity hypotheses hold and the two force
magnitudes agree. -/
theorem force_newton_third_witness :
    0 ≤ (Mass.make 0 0 0 0 0 0 5).mass ∧ 0 ≤ (Mass.make 10 0 0 0 0 0 10).mass ∧
      ((Mass.make 0 0 0 0 0 0 5).forceFrom (Mass.make 10 0 0 0 0 0 10)).magnitude =
        ((Mass.make 10 0 0 0 0 0 10).forceFrom (Mass.make 0 0 0 0 0 0 5)).magnitude := by
  have ha : 0 ≤ (Mass.make 0 0 0 0 0 0 5).mass := by norm_num [Mass.make]
  have hb : 0 ≤ (Mass.make 10 0 0 0 0 0 10).mass := by norm_num [Mass.make]
  exact ⟨ha, hb, (force_newton_third _ _ ha hb).1⟩

/-- C7: In `Mass.update_position` the divisions by `r` and by `r * sin theta`
are unguarded: for a mass whose position has `r = 0`, or `sin theta = 0` with
`r > 0`, a divisor is exactly zero and the computation faults (Python raises
`ZeroDivisionError`, modelled here by `none`) instead of completing. -/
theorem updatePosition_singularity (m : Mass) (dt : ℝ)
    (h : m.position.r = 0 ∨ (Real.sin m.position.theta = 0 ∧ 0 < m.position.r)) :
    m.updatePosition dt = none := by
  unfold Mass.updatePosition
  rw [if_pos]
  rcases h with h | ⟨h, _⟩
  · exact Or.inr (Or.inl (by rw [h, mul_zero]))
  · exact Or.inr (Or.inr (by rw [h, mul_zero]))

/-- Witness for C7: a concrete mass constructed at the origin (so `r = 0`)
faults on `update_position 1`. -/
theorem updatePosition_singularity_witness :
    (Mass.make 0 0 0 0 0 0 5).position.r = 0 ∧
      (Mass.make 0 0 0 0 0 0 5).updatePosition 1 = none := by
  have h : (Mass.make 0 0 0 0 0 0 5).position.r = 0 := by
    show (SphericalPoint.ofCartesian 0 0 0).r = 0
    unfold SphericalPoint.ofCartesian cartesianToSpherical
    rw [if_pos (by norm_num [Real.sqrt_zero])]
  exact ⟨h, updatePosition_singularity _ 1 (Or.inl h)⟩

lemma distanceTo_self_eq_zero (p : SphericalPoint) : p.distanceTo p = 0 := by
  unfold SphericalPoint.distanceTo
  by_cases hp : p.r = 0
  · rw [if_pos hp]
    exact hp
  · rw [if_neg hp, if_neg hp]
    dsimp only
    rw [sub_self, Real.cos_zero, mul_one]
    rw [min_eq_right (by nlinarith [Real.sin_sq_add_cos_sq p.theta] :
      Real.sin p.theta * Real.sin p.theta + Real.cos p.theta * Real.cos p.theta ≤ 1)]
    rw [max_eq_right (by nlinarith [Real.sin_sq_add_cos_sq p.theta] :
      (-1 : ℝ) ≤ Real.sin p.theta * Real.sin p.theta + Real.cos p.theta * Real.cos p.theta)]
    rw [show p.r ^ 2 + p.r ^ 2 - 2 * p.r * p.r *
      (Real.sin p.theta * Real.sin p.theta + Real.cos p.theta * Real.cos p.theta) = 0 from by
      nlinarith [Real.sin_sq_add_cos_sq p.theta]]
    exact Real.sqrt_zero

/-- C8: For every pair of masses at exactly coincident positions the computed
distance is exactly `0`, and `force_from` returns the all-zero force while
`get_gravitational_potential` returns `0` — the degenerate branch, not a
division by zero. -/
theorem coincident_force_potential_zero (a b : Mass) (h : a.position = b.position) :
    a.distanceFrom b = 0 ∧ a.forceFrom b = SphericalForce.zero ∧
      a.getGravitationalPotential b = 0 := by
  have hd : a.distanceFrom b = 0 := by
    unfold Mass.distanceFrom
    rw [h]
    exact distanceTo_self_eq_zero b.position
  refine ⟨hd, ?_, ?_⟩
  · unfold Mass.forceFrom
    rw [if_pos hd]
  · unfold Mass.getGravitationalPotential
    rw [if_pos hd]

/-- Witness for C8: two concrete masses constructed at the same Cartesian point
`(1, 2, 2)` have distance `0`, zero force and zero potential. -/
theorem coincident_force_potential_zero_witness :
    (Mass.make 1 2 2 0 0 0 3).position = (Mass.make 1 2 2 5 0 0 4).position ∧
      (Mass.make 1 2 2 0 0 0 3).distanceFrom (Mass.make 1 2 2 5 0 0 4) = 0 ∧
      (Mass.make 1 2 2 0 0 0 3).forceFrom (Mass.make 1 2 2 5 0 0 4) =
        SphericalForce.zero ∧
      (Mass.make 1 2 2 0 0 0 3).getGravitationalPotential (Mass.make 1 2 2 5 0 0 4) = 0 := by
  have h : (Mass.make 1 2 2 0 0 0 3).position = (Mass.make 1 2 2 5 0 0 4).position := rfl
  exact ⟨h, coincident_force_potential_zero _ _ h⟩

/-- The projection of a mass that `apply_gravity` reads from the *other*
masses: their position and scalar mass. -/
def Mass.gravView (m : Mass) : SphericalPoint × ℝ := (m.position, m.mass)

lemma applyGravity_proj (m : Mass) (os : List Mass) :
    (m.applyGravity os).position = m.position ∧ (m.applyGravity os).mass = m.mass ∧
      (m.applyGravity os).velocity = m.velocity ∧ (m.applyGravity os).age = m.age := by
  unfold Mass.applyGravity
  suffices h : ∀ (os : List Mass) (acc : Mass),
      (os.foldl (fun acc other =>
        { acc with
          total_gravitational_potential :=
            acc.total_gravitational_potential + acc.getGravitationalPotential other
          net_force := acc.net_force.add (acc.forceFrom other) }) acc).position =
        acc.position ∧
      (os.foldl (fun acc other =>
        { acc with
          total_gravitational_potential :=
            acc.total_gravitational_potential + acc.getGravitationalPotential other
          net_force := acc.net_force.add (acc.forceFrom other) }) acc).mass = acc.mass ∧
      (os.foldl (fun acc other =>
        { acc with
          total_gravitational_potential :=
            acc.total_gravitational_potential + acc.getGravitationalPotential other
          net_force := acc.net_force.add (acc.forceFrom other) }) acc).velocity =
        acc.velocity ∧
      (os.foldl (fun acc other =>
        { acc with
          total_gravitational_potential :=
            acc.total_gravitational_potential + acc.getGravitationalPotential other
          net_force := acc.net_force.add (acc.forceFrom other) }) acc).age = acc.age by
    exact h os _
  intro os
  induction os with
  | nil => intro acc; exact ⟨rfl, rfl, rfl, rfl⟩
  | cons o rest ih =>
      intro acc
      simpa using ih _

lemma gravView_applyGravity (m : Mass) (os : List Mass) :
    (m.applyGravity os).gravView = m.gravView := by
  unfold Mass.gravView
  rw [(applyGravity_proj m os).1, (applyGravity_proj m os).2.1]

lemma forceFrom_congr (s : Mass) {o1 o2 : Mass} (h : o1.gravView = o2.gravView) :
    s.forceFrom o1 = s.forceFrom o2 := by
  have hpos : o1.position = o2.position := congrArg Prod.fst h
  have hm : o1.mass = o2.mass := congrArg Prod.snd h
  unfold Mass.forceFrom Mass.distanceFrom
  rw [hpos, hm]

lemma potential_congr (s : Mass) {o1 o2 : Mass} (h : o1.gravView = o2.gravView) :
    s.getGravitationalPotential o1 = s.getGravitationalPotential o2 := by
  have hpos : o1.position = o2.position := congrArg Prod.fst h
  have hm : o1.mass = o2.mass := congrArg Prod.snd h
  unfold Mass.getGravitationalPotential Mass.distanceFrom
  rw [hpos, hm]

lemma applyGravity_congr (m : Mass) :
    ∀ {os1 os2 : List Mass}, os1.map Mass.gravView = os2.map Mass.gravView →
      m.applyGravity os1 = m.applyGravity os2 := by
  have step : ∀ (os1 os2 : List Mass) (acc : Mass),
      os1.map Mass.gravView = os2.map Mass.gravView →
      os1.foldl (fun acc other =>
        { acc with
          total_gravitational_potential :=
            acc.total_gravitational_potential + acc.getGravitationalPotential other
          net_force := acc.net_force.add (acc.forceFrom other) }) acc =
      os2.foldl (fun acc other =>
        { acc with
          total_gravitational_potential :=
            acc.total_gravitational_potential + acc.getGravitationalPotential other
          net_force := acc.net_force.add (acc.forceFrom other) }) acc := by
    intro os1
    induction os1 with
    | nil =>
        intro os2 acc h
        cases os2 with
        | nil => rfl
        | cons o2 rest2 => simp at h
    | cons o1 rest1 ih =>
        intro os2 acc h
        cases os2 with
        | nil => simp at h
        | cons o2 rest2 =>
            simp only [List.map_cons, List.cons.injEq] at h
            obtain ⟨hview, htail⟩ := h
            simp only [List.foldl_cons]
            rw [forceFrom_congr acc hview, potential_congr acc hview]
            exact ih rest2 _ htail
  intro os1 os2 h
  unfold Mass.applyGravity
  exact step os1 os2 _ h

lemma forcePass_eq_snap :
    ∀ (todo done pre : List Mass),
      done.map Mass.gravView = pre.map Mass.gravView →
      forcePass done todo = done.reverse ++ forcePassSnap pre todo := by
  intro todo
  induction todo with
  | nil =>
      intro done pre _
      simp [forcePass, forcePassSnap]
  | cons m rest ih =>
      intro done pre h
      have hctx : (done.reverse ++ rest).map Mass.gravView =
          (pre.reverse ++ rest).map Mass.gravView := by
        rw [List.map_append, List.map_append, List.map_reverse, List.map_reverse, h]
      have hx : Mass.applyGravity m (done.reverse ++ rest) =
          Mass.applyGravity m (pre.reverse ++ rest) := applyGravity_congr m hctx
      show forcePass (Mass.applyGravity m (done.reverse ++ rest) :: done) rest =
        done.reverse ++ forcePassSnap pre (m :: rest)
      rw [ih (Mass.applyGravity m (done.reverse ++ rest) :: done) (m :: pre)
        (by simp only [List.map_cons, gravView_applyGravity, h])]
      show (Mass.applyGravity m (done.reverse ++ rest) :: done).reverse ++
          forcePassSnap (m :: pre) rest =
        done.reverse ++ forcePassSnap pre (m :: rest)
      rw [List.reverse_cons, hx]
      show done.reverse ++ [Mass.applyGravity m (pre.reverse ++ rest)] ++
          forcePassSnap (m :: pre) rest =
        done.reverse ++ (Mass.applyGravity m (pre.reverse ++ rest) ::
          forcePassSnap (m :: pre) rest)
      rw [List.append_assoc]
      rfl

lemma forcePassSnap_map_position :
    ∀ (todo pre : List Mass),
      (forcePassSnap pre todo).map Mass.position = todo.map Mass.position := by
  intro todo
  induction todo with
  | nil => intro pre; rfl
  | cons m rest ih =>
      intro pre
      simp only [forcePassSnap, List.map_cons, (applyGravity_proj m _).1, ih]

lemma forcePassSnap_map_age :
    ∀ (todo pre : List Mass),
      (forcePassSnap pre todo).map Mass.age = todo.map Mass.age := by
  intro todo
  induction todo with
  | nil => intro pre; rfl
  | cons m rest ih =>
      intro pre
      simp only [forcePassSnap, List.map_cons, (applyGravity_proj m _).2.2.2, ih]

/-- C1: `World.update dt` is two-phase with a consistent snapshot: the
sequential in-place force loop produces exactly the accumulators computed
from the entry list (`forcePassSnap`, whose every `apply_gravity` argument
list is built from the original masses only — no mass observes another's
same-step update), positions are unchanged during the force phase,
`update_position dt` runs only after the whole force phase, and the world age
advances by exactly `dt`. -/
theorem spaceTime_update_two_phase (w : SpaceTime) (dt : ℝ) :
    SpaceTime.update w dt =
      Option.map (fun ms => SpaceTime.mk ms (w.age + dt))
        (mapMOpt (fun m => Mass.updatePosition m dt) (forcePassSnap [] w.masses)) ∧
      (forcePassSnap [] w.masses).map Mass.position = w.masses.map Mass.position := by
  constructor
  · unfold SpaceTime.update
    rw [forcePass_eq_snap w.masses [] [] rfl]
    rfl
  · exact forcePassSnap_map_position w.masses []

lemma updatePosition_some_age {m : Mass} {dt : ℝ} {m' : Mass}
    (h : m.updatePosition dt = some m') : m'.age = m.age := by
  unfold Mass.updatePosition at h
  by_cases hc : m.mass = 0 ∨ m.mass * m.position.r = 0 ∨
      m.mass * m.position.r * Real.sin m.position.theta = 0
  · rw [if_pos hc] at h
    exact absurd h (Option.noConfusion)
  · rw [if_neg hc] at h
    have := Option.some.injEq _ _ ▸ h
    simp only [Option.some.injEq] at h
    rw [← h]

lemma mapMOpt_mem {α β : Type} (f : α → Option β) :
    ∀ (l : List α) (l' : List β), mapMOpt f l = some l' →
      ∀ b ∈ l', ∃ a ∈ l, f a = some b := by
  intro l
  induction l with
  | nil =>
      intro l' h b hb
      simp only [mapMOpt, Option.some.injEq] at h
      rw [← h] at hb
      exact absurd hb (List.not_mem_nil b)
  | cons a as ih =>
      intro l' h b hb
      simp only [mapMOpt] at h
      cases hfa : f a with
      | none => rw [hfa] at h; exact absurd h (Option.noConfusion)
      | some b0 =>
          rw [hfa] at h
          cases hmas : mapMOpt f as with
          | none => rw [hmas] at h; exact absurd h (Option.noConfusion)
          | some bs =>
              rw [hmas] at h
              simp only [Option.some_bind', Option.map_some', Option.some.injEq] at h
              rw [← h] at hb
              rcases List.mem_cons.mp hb with hb | hb
              · exact ⟨a, List.mem_cons_self a as, by rw [hfa, hb]⟩
              · obtain ⟨a', ha', hfa'⟩ := ih bs hmas b hb
                exact ⟨a', List.mem_cons_of_mem a ha', hfa'⟩

lemma runOps_age_zero :
    ∀ (ops : List SimOp) (w w' : SpaceTime), (∀ m ∈ w.masses, m.age = 0) →
      runOps w ops = some w' → ∀ m ∈ w'.masses, m.age = 0 := by
  intro ops
  induction ops with
  | nil =>
      intro w w' hw h
      simp only [runOps, Option.some.injEq] at h
      rw [← h]
      exact hw
  | cons op rest ih =>
      intro w w' hw h
      cases op with
      | addMass x y z vx vy vz m =>
          simp only [runOps, runOp, Option.some_bind'] at h
          refine ih _ w' ?_ h
          intro mm hmm
          rcases List.mem_append.mp hmm with hmm | hmm
          · exact hw mm hmm
          · rcases List.mem_singleton.mp hmm with rfl
            rfl
      | update dt =>
          simp only [runOps, runOp] at h
          cases hu : w.update dt with
          | none => rw [hu] at h; exact absurd h (Option.noConfusion)
          | some w1 =>
              rw [hu] at h
              simp only [Option.some_bind'] at h
              refine ih _ w' ?_ h
              intro mm hmm
              unfold SpaceTime.update at hu
              cases hms : mapMOpt (fun m => Mass.updatePosition m dt)
                  (forcePass [] w.masses) with
              | none => rw [hms] at hu; exact absurd hu (Option.noConfusion)
              | some ms' =>
                  rw [hms] at hu
                  simp only [Option.map_some', Option.some.injEq] at hu
                  have hmm' : mm ∈ ms' := by rw [← hu] at hmm; exact hmm
                  obtain ⟨a, ha, hfa⟩ := mapMOpt_mem _ _ _ hms mm hmm'
                  rw [forcePass_eq_snap w.masses [] [] rfl] at ha
                  simp only [List.reverse_nil, List.nil_append] at ha
                  have : a.age ∈ (forcePassSnap [] w.masses).map Mass.age :=
                    List.mem_map_of_mem Mass.age ha
                  rw [forcePassSnap_map_age] at this
                  obtain ⟨a0, ha0, hage⟩ := List.mem_map.mp this
                  rw [updatePosition_some_age hfa, ← hage]
                  exact hw a0 ha0

/-- C10: Over every sequence of `add_mass` / `update` operations from a fresh
world, every mass's age stays `0` (only the world's own age advances):
`update_position` never changes the body's age field, while `time_step` — the
operation the step loop never invokes — is the one that increments it. -/
theorem mass_age_never_advances :
    (∀ (m : Mass) (dt : ℝ) (m' : Mass), m.updatePosition dt = some m' →
        m'.age = m.age) ∧
      (∀ (m : Mass) (dt : ℝ), (m.timeStep dt).age = m.age + dt) ∧
      (∀ (ops : List SimOp) (w' : SpaceTime), runOps SpaceTime.empty ops = some w' →
        ∀ m ∈ w'.masses, m.age = 0) := by
  refine ⟨fun m dt m' h => updatePosition_some_age h, fun m dt => rfl, ?_⟩
  intro ops w' h
  have hempty : ∀ m ∈ SpaceTime.empty.masses, Mass.age m = 0 := by
    intro m hm
    exact absurd hm (List.not_mem_nil m)
  exact runOps_age_zero ops SpaceTime.empty w' hempty h

/-- Witness for C10: a concrete one-operation run (adding one mass) succeeds
and every mass in the resulting world has age `0`. -/
theorem mass_age_never_advances_witness :
    runOps SpaceTime.empty [SimOp.addMass 1 2 3 4 5 6 7] =
        some (SpaceTime.empty.addMass 1 2 3 4 5 6 7) ∧
      ∀ m ∈ (SpaceTime.empty.addMass 1 2 3 4 5 6 7).masses, m.age = 0 := by
  refine ⟨rfl, ?_⟩
  exact mass_age_never_advances.2.2 [SimOp.addMass 1 2 3 4 5 6 7] _ rfl

/-! Concrete-evaluation helpers for the two scenario claims. -/

lemma sqrt_hundred : Real.sqrt 100 = 10 := by
  rw [show (100 : ℝ) = 10 ^ 2 by norm_num]
  exact Real.sqrt_sq (by norm_num)

lemma atan2_zero_of_pos {x : ℝ} (hx : 0 < x) : atan2 0 x = 0 := by
  unfold atan2
  rw [if_pos hx, zero_div, Real.arctan_zero]

lemma atan2_zero_of_neg {x : ℝ} (hx : x < 0) : atan2 0 x = π := by
  unfold atan2
  rw [if_neg (by push_neg; linarith : ¬ 0 < x), if_pos ⟨hx, le_refl (0 : ℝ)⟩,
    zero_div, Real.arctan_zero, zero_add]

lemma ofCartesian_origin : SphericalPoint.ofCartesian 0 0 0 = ⟨0, 0, 0⟩ := by
  unfold SphericalPoint.ofCartesian cartesianToSpherical
  rw [if_pos]
  rw [show ((0 : ℝ) ^ 2 + 0 ^ 2 + 0 ^ 2) = 0 by norm_num]
  exact Real.sqrt_zero

lemma ofCartesian_x10 : SphericalPoint.ofCartesian 10 0 0 = ⟨10, π / 2, 0⟩ := by
  unfold SphericalPoint.ofCartesian cartesianToSpherical
  rw [show ((10 : ℝ) ^ 2 + 0 ^ 2 + 0 ^ 2) = 100 by norm_num, sqrt_hundred,
    if_neg (by norm_num : (10 : ℝ) ≠ 0)]
  show (⟨10, Real.arccos (0 / 10), atan2 0 10⟩ : SphericalPoint) = ⟨10, π / 2, 0⟩
  rw [zero_div, Real.arccos_zero, atan2_zero_of_pos (by norm_num : (0 : ℝ) < 10)]

lemma fromCartesian_radial_eval :
    SphericalVelocity.fromCartesian 1 0 0 ⟨10, π / 2, 0⟩ = ⟨1, 0, 0⟩ := by
  unfold SphericalVelocity.fromCartesian
  rw [if_neg (by norm_num : ((⟨10, π / 2, 0⟩ : SphericalPoint)).r ≠ 0)]
  show (⟨1 * Real.sin (π / 2) * Real.cos 0 + 0 * Real.sin (π / 2) * Real.sin 0 +
      0 * Real.cos (π / 2),
    if 0 < (10 : ℝ) then
      (1 * Real.cos (π / 2) * Real.cos 0 + 0 * Real.cos (π / 2) * Real.sin 0 -
        0 * Real.sin (π / 2)) / 10 else 0,
    if 0 < (10 : ℝ) ∧ Real.sin (π / 2) ≠ 0 then
      (-1 * Real.sin 0 + 0 * Real.cos 0) / (10 * Real.sin (π / 2)) else 0⟩ :
      SphericalVelocity) = ⟨1, 0, 0⟩
  rw [Real.sin_pi_div_two, Real.cos_pi_div_two, Real.sin_zero, Real.cos_zero]
  norm_num

lemma fmod_zero_left (b : ℝ) : fmod 0 b = 0 := by
  unfold fmod
  rw [zero_div, Int.floor_zero, Int.cast_zero, mul_zero, sub_zero]

lemma fmod_pi_div_two : fmod (π / 2) π = π / 2 := by
  unfold fmod
  rw [show (π / 2) / π = (1 : ℝ) / 2 from by
    field_simp
    ring]
  rw [show ⌊(1 : ℝ) / 2⌋ = 0 from by norm_num]
  rw [Int.cast_zero, mul_zero, sub_zero]

lemma make_radial_eval (m : ℝ) : Mass.make 10 0 0 1 0 0 m =
    ⟨⟨10, π / 2, 0⟩, ⟨1, 0, 0⟩, 0, m, SphericalForce.zero, 0⟩ := by
  unfold Mass.make
  rw [ofCartesian_x10]
  dsimp only
  rw [fromCartesian_radial_eval]

lemma updatePosition_radial_eval (m : ℝ) (hm : m ≠ 0) :
    Mass.updatePosition ⟨⟨10, π / 2, 0⟩, ⟨1, 0, 0⟩, 0, m, SphericalForce.zero, 0⟩ 3 =
      some ⟨⟨13, π / 2, 0⟩, ⟨1, 0, 0⟩, 0, m, SphericalForce.zero, 0⟩ := by
  unfold Mass.updatePosition
  dsimp only
  rw [Real.sin_pi_div_two, mul_one]
  rw [if_neg (by
    push_neg
    exact ⟨hm, mul_ne_zero hm (by norm_num), mul_ne_zero hm (by norm_num)⟩)]
  simp only [SphericalForce.zero, SphericalVelocity.add, SphericalPoint.setR,
    SphericalPoint.setTheta, SphericalPoint.setPhi, zero_div, zero_mul, add_zero,
    mul_zero, mul_one, zero_add]
  rw [fmod_pi_div_two, fmod_zero_left]
  norm_num

/-- C9: A single mass constructed at Cartesian `(10, 0, 0)` with velocity
`(1, 0, 0)` (any nonzero scalar mass) in an otherwise empty world: its initial
`r` is `10` and radial speed `1`; after `update 3` its `position.r` equals the
initial `r` plus `3` times the radial speed (`13`), which is no smaller than
the initial `r`. -/
theorem single_mass_radial_motion (m : ℝ) (hm : m ≠ 0) :
    (Mass.make 10 0 0 1 0 0 m).position.r = 10 ∧
      (Mass.make 10 0 0 1 0 0 m).velocity.v_r = 1 ∧
      Option.map (fun w => w.masses.map fun mm => mm.position.r)
        (SpaceTime.update (SpaceTime.empty.addMass 10 0 0 1 0 0 m) 3) =
        some [10 + 1 * 3] ∧
      (Mass.make 10 0 0 1 0 0 m).position.r ≤ 10 + 1 * 3 := by
  refine ⟨by rw [make_radial_eval], by rw [make_radial_eval], ?_,
    by rw [make_radial_eval]; show (10 : ℝ) ≤ 10 + 1 * 3; norm_num⟩
  unfold SpaceTime.update
  rw [show forcePass [] (SpaceTime.empty.addMass 10 0 0 1 0 0 m).masses =
    [Mass.make 10 0 0 1 0 0 m] from rfl]
  rw [make_radial_eval]
  simp only [mapMOpt]
  rw [updatePosition_radial_eval m hm]
  simp only [Option.some_bind', Option.map_some']
  show some [(13 : ℝ)] = some [10 + 1 * 3]
  norm_num

/-- Witness for C9 at the concrete mass value `10` kg. -/
theorem single_mass_radial_motion_witness :
    (10 : ℝ) ≠ 0 ∧
      Option.map (fun w => w.masses.map fun mm => mm.position.r)
        (SpaceTime.update (SpaceTime.empty.addMass 10 0 0 1 0 0 10) 3) =
        some [10 + 1 * 3] := by
  have hm : (10 : ℝ) ≠ 0 := by norm_num
  exact ⟨hm, (single_mass_radial_motion 10 hm).2.2.1⟩

lemma fromCartesian_zero_vel (p : SphericalPoint) :
    SphericalVelocity.fromCartesian 0 0 0 p = ⟨0, 0, 0⟩ := by
  unfold SphericalVelocity.fromCartesian
  by_cases hr : p.r = 0
  · rw [if_pos hr]
    rw [show ((0 : ℝ) ^ 2 + 0 ^ 2 + 0 ^ 2) = 0 by norm_num, Real.sqrt_zero]
  · rw [if_neg hr]
    simp only [zero_mul, mul_zero, neg_zero, add_zero, zero_add, zero_sub, neg_mul,
      zero_div, ite_self]

lemma dirAB : SphericalPoint.directionTo ⟨0, 0, 0⟩ ⟨10, π / 2, 0⟩ = (π / 2, 0) := by
  unfold SphericalPoint.directionTo SphericalPoint.x SphericalPoint.y SphericalPoint.z
    sphericalToCartesian
  dsimp only
  rw [Real.sin_pi_div_two, Real.cos_pi_div_two, Real.sin_zero, Real.cos_zero]
  norm_num
  exact atan2_zero_of_pos (by norm_num)

lemma dirBA : SphericalPoint.directionTo ⟨10, π / 2, 0⟩ ⟨0, 0, 0⟩ = (π / 2, π) := by
  unfold SphericalPoint.directionTo SphericalPoint.x SphericalPoint.y SphericalPoint.z
    sphericalToCartesian
  dsimp only
  rw [Real.sin_pi_div_two, Real.cos_pi_div_two, Real.sin_zero, Real.cos_zero]
  norm_num
  exact atan2_zero_of_neg (by norm_num)

/-- The common force magnitude of the two-mass scenario: `G * 5 * 10 / 100`. -/
def gMag : ℝ := SpaceTime.Gravitational_Constant * 5 * 10 / 100

lemma distAB : SphericalPoint.distanceTo ⟨0, 0, 0⟩ ⟨10, π / 2, 0⟩ = 10 := by
  unfold SphericalPoint.distanceTo
  rw [if_pos rfl]

lemma distBA : SphericalPoint.distanceTo ⟨10, π / 2, 0⟩ ⟨0, 0, 0⟩ = 10 := by
  unfold SphericalPoint.distanceTo
  rw [if_neg (by norm_num : ¬ ((10 : ℝ) = 0)), if_pos rfl]

lemma forceAB :
    Mass.forceFrom ⟨⟨0, 0, 0⟩, ⟨0, 0, 0⟩, 0, 5, SphericalForce.zero, 0⟩
      ⟨⟨10, π / 2, 0⟩, ⟨0, 0, 0⟩, 0, 10, SphericalForce.zero, 0⟩ = ⟨0, gMag, 0⟩ := by
  unfold Mass.forceFrom Mass.distanceFrom
  dsimp only
  rw [distAB, if_neg (by norm_num : ¬ ((10 : ℝ) = 0)), dirAB]
  dsimp only
  rw [Real.sin_pi_div_two, Real.cos_pi_div_two, Real.sin_zero, Real.cos_zero]
  unfold gMag
  norm_num
  ring

lemma forceBA :
    Mass.forceFrom ⟨⟨10, π / 2, 0⟩, ⟨0, 0, 0⟩, 0, 10, SphericalForce.zero, 0⟩
      ⟨⟨0, 0, 0⟩, ⟨0, 0, 0⟩, 0, 5, SphericalForce.zero, 0⟩ = ⟨-gMag, 0, 0⟩ := by
  unfold Mass.forceFrom Mass.distanceFrom
  dsimp only
  rw [distBA, if_neg (by norm_num : ¬ ((10 : ℝ) = 0)), dirBA]
  dsimp only
  rw [Real.sin_pi_div_two, Real.cos_pi_div_two, Real.sin_zero, Real.cos_zero,
    Real.sin_pi, Real.cos_pi]
  unfold gMag
  norm_num

/-- The C6 scenario world: 5 kg at the origin, 10 kg at `(10, 0, 0)`, at rest. -/
def twoMassWorld : SpaceTime :=
  (SpaceTime.empty.addMass 0 0 0 0 0 0 5).addMass 10 0 0 0 0 0 10

lemma massA_eval : Mass.make 0 0 0 0 0 0 5 =
    ⟨⟨0, 0, 0⟩, ⟨0, 0, 0⟩, 0, 5, SphericalForce.zero, 0⟩ := by
  unfold Mass.make
  rw [ofCartesian_origin]
  dsimp only
  rw [fromCartesian_zero_vel]

lemma massB_eval : Mass.make 10 0 0 0 0 0 10 =
    ⟨⟨10, π / 2, 0⟩, ⟨0, 0, 0⟩, 0, 10, SphericalForce.zero, 0⟩ := by
  unfold Mass.make
  rw [ofCartesian_x10]
  dsimp only
  rw [fromCartesian_zero_vel]

lemma twoMassWorld_masses : twoMassWorld.masses =
    [Mass.make 0 0 0 0 0 0 5, Mass.make 10 0 0 0 0 0 10] := rfl

lemma forcePass_netforce_eval :
    (forcePass [] twoMassWorld.masses).map Mass.net_force =
      [⟨0, gMag, 0⟩, ⟨-gMag, 0, 0⟩] := by
  rw [twoMassWorld_masses, massA_eval, massB_eval]
  show [(Mass.applyGravity ⟨⟨0, 0, 0⟩, ⟨0, 0, 0⟩, 0, 5, SphericalForce.zero, 0⟩
      [⟨⟨10, π / 2, 0⟩, ⟨0, 0, 0⟩, 0, 10, SphericalForce.zero, 0⟩]).net_force,
    (Mass.applyGravity ⟨⟨10, π / 2, 0⟩, ⟨0, 0, 0⟩, 0, 10, SphericalForce.zero, 0⟩
      [Mass.applyGravity ⟨⟨0, 0, 0⟩, ⟨0, 0, 0⟩, 0, 5, SphericalForce.zero, 0⟩
        [⟨⟨10, π / 2, 0⟩, ⟨0, 0, 0⟩, 0, 10, SphericalForce.zero, 0⟩]]).net_force] = _
  have h1 : (Mass.applyGravity ⟨⟨0, 0, 0⟩, ⟨0, 0, 0⟩, 0, 5, SphericalForce.zero, 0⟩
      [⟨⟨10, π / 2, 0⟩, ⟨0, 0, 0⟩, 0, 10, SphericalForce.zero, 0⟩]).net_force =
      SphericalForce.zero.add
        (Mass.forceFrom ⟨⟨0, 0, 0⟩, ⟨0, 0, 0⟩, 0, 5, SphericalForce.zero, 0⟩
          ⟨⟨10, π / 2, 0⟩, ⟨0, 0, 0⟩, 0, 10, SphericalForce.zero, 0⟩) := rfl
  have h2 : (Mass.applyGravity ⟨⟨10, π / 2, 0⟩, ⟨0, 0, 0⟩, 0, 10, SphericalForce.zero, 0⟩
      [Mass.applyGravity ⟨⟨0, 0, 0⟩, ⟨0, 0, 0⟩, 0, 5, SphericalForce.zero, 0⟩
        [⟨⟨10, π / 2, 0⟩, ⟨0, 0, 0⟩, 0, 10, SphericalForce.zero, 0⟩]]).net_force =
      SphericalForce.zero.add
        (Mass.forceFrom ⟨⟨10, π / 2, 0⟩, ⟨0, 0, 0⟩, 0, 10, SphericalForce.zero, 0⟩
          (Mass.applyGravity ⟨⟨0, 0, 0⟩, ⟨0, 0, 0⟩, 0, 5, SphericalForce.zero, 0⟩
            [⟨⟨10, π / 2, 0⟩, ⟨0, 0, 0⟩, 0, 10, SphericalForce.zero, 0⟩])) := rfl
  rw [h1, h2, forceAB,
    forceFrom_congr _ (gravView_applyGravity
      ⟨⟨0, 0, 0⟩, ⟨0, 0, 0⟩, 0, 5, SphericalForce.zero, 0⟩
      [⟨⟨10, π / 2, 0⟩, ⟨0, 0, 0⟩, 0, 10, SphericalForce.zero, 0⟩]),
    forceBA]
  unfold SphericalForce.add SphericalForce.zero
  norm_num

lemma update_twoMassWorld_none : SpaceTime.update twoMassWorld 1 = none := by
  unfold SpaceTime.update
  rw [twoMassWorld_masses, massA_eval, massB_eval]
  have hfault : Mass.updatePosition
      (Mass.applyGravity ⟨⟨0, 0, 0⟩, ⟨0, 0, 0⟩, 0, 5, SphericalForce.zero, 0⟩
        [⟨⟨10, π / 2, 0⟩, ⟨0, 0, 0⟩, 0, 10, SphericalForce.zero, 0⟩]) 1 = none := by
    refine updatePosition_singularity _ 1 (Or.inl ?_)
    rw [(applyGravity_proj _ _).1]
  show Option.map _ (mapMOpt (fun m => Mass.updatePosition m 1)
    (Mass.applyGravity ⟨⟨0, 0, 0⟩, ⟨0, 0, 0⟩, 0, 5, SphericalForce.zero, 0⟩
        [⟨⟨10, π / 2, 0⟩, ⟨0, 0, 0⟩, 0, 10, SphericalForce.zero, 0⟩] ::
      [Mass.applyGravity ⟨⟨10, π / 2, 0⟩, ⟨0, 0, 0⟩, 0, 10, SphericalForce.zero, 0⟩
        [Mass.applyGravity ⟨⟨0, 0, 0⟩, ⟨0, 0, 0⟩, 0, 5, SphericalForce.zero, 0⟩
          [⟨⟨10, π / 2, 0⟩, ⟨0, 0, 0⟩, 0, 10, SphericalForce.zero, 0⟩]]])) = none
  simp only [mapMOpt]
  rw [hfault]
  rfl

lemma gMag_pos : 0 < gMag := by
  norm_num [gMag, SpaceTime.Gravitational_Constant]

/-- C6 counterexample: in the two-mass scenario (5 kg at the origin, 10 kg at
`(10,0,0)`), `update 1` does not complete — it faults in `update_position` on
the origin mass — and after the force phase the origin mass's *radial* force
component is `0`, not `G*5*10/100`: its force lies entirely in the theta
component. -/
theorem two_mass_force_claim_cex :
    SpaceTime.update twoMassWorld 1 = none ∧
      ((forcePass [] twoMassWorld.masses).map Mass.net_force).map SphericalForce.F_r =
        [0, -gMag] ∧
      gMag ≠ 0 := by
  refine ⟨update_twoMassWorld_none, ?_, ne_of_gt gMag_pos⟩
  rw [forcePass_netforce_eval]
  rfl

/-- C6 amended: after the force phase of `update 1` on the two-mass scenario,
the mass at `(10,0,0)` carries net force `(-G*5*10/100, 0, 0)` — radial
magnitude `G*5*10/100`, pointing along `-x` toward the other mass — while the
origin mass (where the spherical basis degenerates to `theta = phi = 0`)
carries `(0, G*5*10/100, 0)`: zero radial component, with the full magnitude
in its theta component, whose basis direction at the origin's stored angles is
the `+x` axis toward the other mass; both total magnitudes equal
`G*5*10/100`, the signs encode mutual attraction, and the integration phase
then faults on the origin mass, so `update 1` returns no completed state. -/
theorem two_mass_force_amended :
    (forcePass [] twoMassWorld.masses).map Mass.net_force =
        [⟨0, gMag, 0⟩, ⟨-gMag, 0, 0⟩] ∧
      SphericalForce.magnitude ⟨0, gMag, 0⟩ = gMag ∧
      SphericalForce.magnitude ⟨-gMag, 0, 0⟩ = gMag ∧
      0 < gMag ∧
      SpaceTime.update twoMassWorld 1 = none := by
  refine ⟨forcePass_netforce_eval, ?_, ?_, gMag_pos, update_twoMassWorld_none⟩
  · unfold SphericalForce.magnitude
    dsimp only
    rw [show (0 : ℝ) ^ 2 + gMag ^ 2 + 0 ^ 2 = gMag ^ 2 by ring]
    exact Real.sqrt_sq gMag_pos.le
  · unfold SphericalForce.magnitude
    dsimp only
    rw [show (-gMag : ℝ) ^ 2 + 0 ^ 2 + 0 ^ 2 = gMag ^ 2 by ring]
    exact Real.sqrt_sq gMag_pos.le
